import Mathlib

/-!
Verification of the medication-reminder scheduling core.

Shallow embedding of the repository's reminder notification scheduling and
lifecycle state machine:
  * `src/src/services/NotificationManager.ts` — the Scheduling Engine and
    Restoration Reconciler (`scheduleNotification`,
    `scheduleRepeatNotifications`, `cancelNotification`,
    `cancelNotifications`, `restoreNotifications`, `cleanup`, and the
    ledger helpers `saveScheduledNotification`,
    `removeScheduledNotification`, `saveAllScheduledNotifications`);
  * `src/src/services/notificationHandlers.ts` — the Action Resolver
    (`handleTakeAction`, `handleSnoozeAction`, `handleSkipAction`);
  * `src/src/utils/reminderStatus.ts` — `applyStatusRules`;
  * `src/utils/storage.ts` (shipped as `src/unnamed/part_003`) — the
    Coordinated Store: the `StorageManager` class with its in-memory
    `cache` map and per-key `pendingWrites` promise chain over
    `AsyncStorage`;
  * `src/src/constants/reminder.ts` — the numeric constants.

Modelling conventions:
  * Clock instants are `Nat` epoch milliseconds (`Date.now()`), passed
    explicitly as a `now` parameter wherever the source calls `Date.now()`.
    `scheduleNotification` reads the clock twice in the source (once for the
    past-deadline guard, once per repeat-interval guard inside
    `scheduleRepeatNotifications`), so it takes two clock parameters
    `now`/`nowR`; call sites that run in one tick pass the same value twice.
  * A reminder's `date` string (`YYYY-MM-DD`) is modelled as a day index and
    its `time` string (`HH:mm`) as a minute-of-day; the two encodings are in
    bijection, and `new Date(date + 'T' + time).getTime()` becomes `dueMs`.
    Consequently `formatISODate`/`formatTimeFromDate` of an instant `t` are
    `t / 60000 / 1440` and `t / 60000 % 1440` (seconds are truncated by the
    `HH:mm` format, exactly as in the source).
  * Trigger / notification identifiers stay `String`, with the source's
    template-literal escalation ids (`repeatId`).
  * The notifee backend is a list of live trigger notifications, each with
    its notification id and its `data.reminderId` payload;
    `createTriggerNotification` with an existing id replaces that
    notification, `cancelNotification` removes it, absent ids are no-ops.
  * `AsyncStorage` state is carried explicitly: the `scheduled_notifications`
    ledger as a list of rows and the `reminders` key as a list of records.
    Fallible storage/backend calls whose failures the source swallows are
    modelled on their success path; error propagation that decides a claim
    is discussed at that claim.
-/

/-- `ReminderStatus` from `src/src/types.ts`. -/
inductive ReminderStatus where
  | taken
  | pending
  | missed
deriving DecidableEq, Repr

/-- `MedicationType` from `src/src/types.ts`. -/
inductive MedicationType where
  | tablet
  | capsule
  | liquid
  | injection
  | other
deriving DecidableEq, Repr

/-- The `Reminder` record from `src/src/types.ts`. `time` is the minute of
day encoded by the `HH:mm` string; `date` is the day index encoded by the
`YYYY-MM-DD` string. -/
structure Reminder where
  id : String
  name : String
  dosage : String
  type : MedicationType
  time : Nat
  status : ReminderStatus
  date : Nat
  courseId : Option Nat
  snoozeCount : Option Nat
  originalTime : Option Nat
  originalDate : Option Nat
deriving DecidableEq, Repr

/-- A row of the persisted `scheduled_notifications` ledger
(`ScheduledNotification` in `NotificationManager.ts`). -/
structure ScheduledNotification where
  reminderId : String
  notificationId : String
  scheduledTime : Nat
deriving DecidableEq, Repr

/-- A live trigger notification registered with the notifee backend:
its notification id and its `data.reminderId` payload. -/
structure BackendTrigger where
  id : String
  dataReminderId : String
deriving DecidableEq, Repr

/-- The state the `NotificationManager` operates on: the persisted
`scheduled_notifications` ledger and the backend's live triggers. -/
structure NMState where
  ledger : List ScheduledNotification
  backend : List BackendTrigger
deriving DecidableEq, Repr

/-- The state the standalone action handlers operate on: the persisted
`reminders` collection plus the `NotificationManager` state. -/
structure AppState where
  reminders : List Reminder
  nm : NMState
deriving DecidableEq, Repr

/-- `REMINDER_TIMEOUT_MS` from `src/src/constants/reminder.ts`. -/
def REMINDER_TIMEOUT_MS : Nat := 15 * 60 * 1000

/-- `MAX_SNOOZE_COUNT` from `src/src/constants/reminder.ts`. -/
def MAX_SNOOZE_COUNT : Nat := 3

/-- `SNOOZE_DURATION_MS` from `src/src/constants/reminder.ts`. -/
def SNOOZE_DURATION_MS : Nat := 15 * 60 * 1000

/-- `REPEAT_NOTIFICATION_INTERVALS` from `src/src/constants/reminder.ts`. -/
def REPEAT_NOTIFICATION_INTERVALS : List Nat := [5, 10, 15]

/-- The escalation trigger id template literal
`` `${reminderId}_repeat_${intervalMinutes}` ``. -/
def repeatId (reminderId : String) (intervalMinutes : Nat) : String :=
  reminderId ++ "_repeat_" ++ toString intervalMinutes

/-- The due instant of a reminder:
`new Date(r.date + 'T' + r.time).getTime()` (equivalently
`new Date(r.date)` followed by `setHours(hour, minute, 0, 0)`),
in epoch milliseconds. -/
def dueMs (r : Reminder) : Nat :=
  (r.date * 1440 + r.time) * 60000

/-- `notifee.createTriggerNotification`: registering a notification whose id
already exists replaces it. -/
def createTrigger (nid owner : String) (st : NMState) : NMState :=
  { st with backend := st.backend.filter (fun t => t.id != nid) ++ [⟨nid, owner⟩] }

/-- `notifee.cancelNotification`: absence of the id is not an error. -/
def cancelTrigger (nid : String) (st : NMState) : NMState :=
  { st with backend := st.backend.filter (fun t => t.id != nid) }

/-- List-level body of `NotificationManager.saveScheduledNotification`:
remove any old entry with the same `reminderId`, then append the new one. -/
def saveRow (L : List ScheduledNotification) (n : ScheduledNotification) :
    List ScheduledNotification :=
  L.filter (fun x => x.reminderId != n.reminderId) ++ [n]

/-- List-level body of `NotificationManager.removeScheduledNotification`. -/
def removeRow (L : List ScheduledNotification) (rid : String) :
    List ScheduledNotification :=
  L.filter (fun x => x.reminderId != rid)

/-- `saveScheduledNotification` acting on the manager state. -/
def saveSched (n : ScheduledNotification) (st : NMState) : NMState :=
  { st with ledger := saveRow st.ledger n }

/-- `removeScheduledNotification` acting on the manager state. -/
def removeSched (rid : String) (st : NMState) : NMState :=
  { st with ledger := removeRow st.ledger rid }

/-- The `for (const intervalMinutes of repeatIntervals)` loop of
`NotificationManager.scheduleRepeatNotifications`, recursing over the
remaining intervals: if the repeat time is still in the future
(`repeatTime.getTime() <= Date.now()` skips), create the escalation trigger
and persist its ledger row. `nowR` is the `Date.now()` read inside the
loop. -/
def scheduleRepeatsAux (nowR : Nat) (reminderId : String) (originalTime : Nat) :
    List Nat → NMState → NMState
  | [], st => st
  | intervalMinutes :: rest, st =>
    let repeatTime := originalTime + intervalMinutes * 60 * 1000
    if repeatTime ≤ nowR then scheduleRepeatsAux nowR reminderId originalTime rest st
    else
      let rId := repeatId reminderId intervalMinutes
      scheduleRepeatsAux nowR reminderId originalTime rest
        (saveSched ⟨rId, rId, repeatTime⟩ (createTrigger rId reminderId st))

/-- `NotificationManager.scheduleRepeatNotifications`. -/
def scheduleRepeatNotifications (nowR : Nat) (reminderId : String)
    (originalTime : Nat) (st : NMState) : NMState :=
  scheduleRepeatsAux nowR reminderId originalTime REPEAT_NOTIFICATION_INTERVALS st

/-- `NotificationManager.scheduleNotification`: refuse a date not strictly in
the future (returns `null`), otherwise create the primary trigger (notifee
returns the id that was passed in), persist its ledger row, then schedule
the escalation repeats. `now` is the `Date.now()` of the past-date guard and
`nowR` the one read by the repeat loop. -/
def scheduleNotification (now nowR : Nat) (reminderId : String) (date : Nat)
    (st : NMState) : Option String × NMState :=
  if date ≤ now then (none, st)
  else
    let st := createTrigger reminderId reminderId st
    let st := saveSched ⟨reminderId, reminderId, date⟩ st
    let st := scheduleRepeatNotifications nowR reminderId date st
    (some reminderId, st)

/-- The `for (const interval of repeatIntervals)` cancellation loop shared
verbatim by `NotificationManager.cancelNotification`,
`handleTakeAction`, `handleSkipAction` and `cancelNotificationWithRepeats`:
cancel each `{id}_repeat_{m}` backend notification and remove its ledger
row, recursing over the remaining intervals. -/
def cancelRepeatsAux (reminderId : String) : List Nat → NMState → NMState
  | [], st => st
  | interval :: rest, st =>
    let rId := repeatId reminderId interval
    cancelRepeatsAux reminderId rest (removeSched rId (cancelTrigger rId st))

/-- The repeat-notification cancellation loop over all of
`REPEAT_NOTIFICATION_INTERVALS`. -/
def cancelRepeats (reminderId : String) (st : NMState) : NMState :=
  cancelRepeatsAux reminderId REPEAT_NOTIFICATION_INTERVALS st

/-- `NotificationManager.cancelNotification`: look up the primary row, cancel
its backend notification and remove its row if present, then cancel every
escalation trigger and remove its row. -/
def cancelNotification (reminderId : String) (st : NMState) : NMState :=
  let st :=
    match st.ledger.find? (fun n => n.reminderId == reminderId) with
    | some notification =>
        removeSched reminderId (cancelTrigger notification.notificationId st)
    | none => st
  cancelRepeats reminderId st

/-- The `for (const notificationId of notificationIds)` loop of
`NotificationManager.cancelNotifications`. -/
def cancelTriggersAux : List String → NMState → NMState
  | [], st => st
  | nid :: rest, st => cancelTriggersAux rest (cancelTrigger nid st)

/-- `NotificationManager.cancelNotifications`: collect the notification ids
of the ledger rows whose `reminderId` is among the given ids, cancel those
backend notifications, and keep only the other rows. (Note: escalation rows
have `reminderId` of the form `{id}_repeat_{m}`, which is never a member of
the passed `reminderIds`.) -/
def cancelNotifications (reminderIds : List String) (st : NMState) : NMState :=
  let notificationIds :=
    (st.ledger.filter (fun n => reminderIds.contains n.reminderId)).map
      (fun n => n.notificationId)
  if notificationIds.isEmpty then st
  else
    let st := cancelTriggersAux notificationIds st
    { st with ledger := st.ledger.filter (fun n => !reminderIds.contains n.reminderId) }

/-- The per-reminder loop body of `NotificationManager.restoreNotifications`:
skip non-`pending` reminders, skip past due times, skip reminders some live
trigger already references, otherwise schedule. `existing` is the set of
`data.reminderId` payloads of the live triggers, captured before the loop. -/
def restoreLoop (now : Nat) (existing : List String) :
    List Reminder → NMState → NMState
  | [], st => st
  | r :: rest, st =>
    if r.status != ReminderStatus.pending then restoreLoop now existing rest st
    else if dueMs r ≤ now then restoreLoop now existing rest st
    else if existing.contains r.id then restoreLoop now existing rest st
    else restoreLoop now existing rest (scheduleNotification now now r.id (dueMs r) st).2

/-- `NotificationManager.restoreNotifications`: capture the live triggers'
`data.reminderId` payloads, prune ledger rows whose fire time has passed,
then re-register every pending, future, not-already-covered reminder. -/
def restoreNotifications (now : Nat) (reminders : List Reminder)
    (st : NMState) : NMState :=
  let existingIds := st.backend.map (fun t => t.dataReminderId)
  let st := { st with ledger := st.ledger.filter (fun n => now < n.scheduledTime) }
  restoreLoop now existingIds reminders st

/-- `NotificationManager.cleanup`: drop ledger rows whose fire time has
passed. -/
def cleanup (now : Nat) (st : NMState) : NMState :=
  { st with ledger := st.ledger.filter (fun n => now < n.scheduledTime) }

/-- `applyStatusRules` from `src/src/utils/reminderStatus.ts`. -/
def applyStatusRules (now : Nat) (items : List Reminder) : List Reminder :=
  items.map (fun r =>
    if r.status = ReminderStatus.taken ∨ r.status = ReminderStatus.missed then r
    else if dueMs r + REMINDER_TIMEOUT_MS ≤ now then
      { r with status := ReminderStatus.missed }
    else
      { r with status := ReminderStatus.pending })

/-- `cancelNotificationWithRepeats` from `notificationHandlers.ts`: cancel
the primary notification by its reminder id, remove its row, then cancel
every repeat. -/
def cancelNotificationWithRepeats (reminderId : String) (st : NMState) : NMState :=
  cancelRepeats reminderId (removeSched reminderId (cancelTrigger reminderId st))

/-- `handleTakeAction` from `notificationHandlers.ts`: set the record's
status to `taken`, remove the primary ledger row, and cancel every repeat
notification. -/
def handleTakeAction (reminderId : String) (st : AppState) : AppState :=
  let reminders := st.reminders.map (fun r =>
    if r.id == reminderId then { r with status := ReminderStatus.taken } else r)
  ⟨reminders, cancelRepeats reminderId (removeSched reminderId st.nm)⟩

/-- `handleSkipAction` from `notificationHandlers.ts`: set the record's
status to `missed`, remove the primary ledger row, and cancel every repeat
notification. -/
def handleSkipAction (reminderId : String) (st : AppState) : AppState :=
  let reminders := st.reminders.map (fun r =>
    if r.id == reminderId then { r with status := ReminderStatus.missed } else r)
  ⟨reminders, cancelRepeats reminderId (removeSched reminderId st.nm)⟩

/-- `reminders[reminderIndex] = updated` after
`reminders.findIndex(r => r.id === reminderId)`: replace the first record
satisfying the predicate. -/
def setFirst (p : Reminder → Bool) (v : Reminder) : List Reminder → List Reminder
  | [] => []
  | r :: rest => if p r then v :: rest else r :: setFirst p v rest

/-- `handleSnoozeAction` from `notificationHandlers.ts`: locate the record
(`findIndex`; a missing key or record is a no-op), defend against the snooze
bound, compute the new due instant `Date.now() + SNOOZE_DURATION_MS`, store
the pre-snooze date/time into `originalDate`/`originalTime` on the first
snooze only, bump the record's date/time/snoozeCount, persist, cancel the
old triggers, and re-schedule at the snooze instant. -/
def handleSnoozeAction (now : Nat) (reminderId : String) (st : AppState) : AppState :=
  match st.reminders.find? (fun r => r.id == reminderId) with
  | none => st
  | some reminder =>
    let currentSnoozeCount := reminder.snoozeCount.getD 0
    if MAX_SNOOZE_COUNT ≤ currentSnoozeCount then st
    else
      let snoozeTime := now + SNOOZE_DURATION_MS
      let newTime := snoozeTime / 60000 % 1440
      let newDate := snoozeTime / 60000 / 1440
      let reminder1 :=
        if currentSnoozeCount = 0 then
          { reminder with
              originalTime := some reminder.time
              originalDate := some reminder.date }
        else reminder
      let reminder2 :=
        { reminder1 with
            time := newTime
            date := newDate
            snoozeCount := some (currentSnoozeCount + 1) }
      let reminders := setFirst (fun r => r.id == reminderId) reminder2 st.reminders
      let nm := cancelNotificationWithRepeats reminderId st.nm
      let nm := (scheduleNotification now now reminderId snoozeTime nm).2
      ⟨reminders, nm⟩

/-- The `data.reminderId` payloads of the backend's live triggers — the
`existingIds` set built at the top of
`NotificationManager.restoreNotifications`. -/
def owners (b : List BackendTrigger) : List String :=
  b.map (fun t => t.dataReminderId)

/-- The trigger ids the Scheduling Engine derives from one reminder id: the
primary id itself plus every escalation id. -/
def trigIds (reminderId : String) : List String :=
  reminderId :: REPEAT_NOTIFICATION_INTERVALS.map (repeatId reminderId)

/-- A backend state is coherent when every live trigger's notification id is
one of the ids the engine derives from that trigger's own
`data.reminderId` — the shape of every trigger this code registers. -/
def coherentBackend (b : List BackendTrigger) : Prop :=
  ∀ t ∈ b, t.id ∈ trigIds t.dataReminderId

/-- The derived trigger-id families of the given reminder ids are pairwise
disjoint: no reminder id of the collection equals another's primary or
`{id}_repeat_{m}` id. -/
def trigDisjoint (ids : List String) : Prop :=
  ∀ a ∈ ids, ∀ b ∈ ids, a ≠ b → ∀ x ∈ trigIds a, x ∉ trigIds b

/-- `updateReminderStatus`'s list transform from `src/src/hooks/useReminders.ts`:
`reminders.map(r => (r.id === id ? { ...r, status } : r))`. -/
def updateStatusWrite (id : String) (status : ReminderStatus) :
    List Reminder → List Reminder :=
  fun reminders => reminders.map (fun r =>
    if r.id == id then { r with status := status } else r)

/-- `scheduleReminders`'s list transform from `src/src/hooks/useReminders.ts`:
`[...existing, ...items]`. -/
def addRemindersWrite (items : List Reminder) :
    List Reminder → List Reminder :=
  fun existing => existing ++ items

/-- The state of the `StorageManager` singleton from `src/utils/storage.ts`
(`src/unnamed/part_003`): the in-memory `cache` map plus the durable
`AsyncStorage` contents, each an association of values to string keys. -/
structure StorageState (V : Type) where
  cache : List (String × V)
  durable : List (String × V)
deriving DecidableEq, Repr

/-- Store a value under a key in an association list, replacing any previous
binding (the effect of `Map.set` / `AsyncStorage.setItem`). -/
def kvSet {V : Type} (k : String) (v : V) (l : List (String × V)) :
    List (String × V) :=
  l.filter (fun p => p.1 != k) ++ [(k, v)]

/-- Read the value bound to a key in an association list. -/
def kvGet {V : Type} (k : String) (l : List (String × V)) : Option V :=
  (l.find? (fun p => p.1 == k)).map (fun p => p.2)

/-- `StorageManager.set` from `src/utils/storage.ts`: after awaiting any
pending write on the key, the write operation puts the value into the
in-memory cache first and only then awaits the durable
`AsyncStorage.setItem`; a durable failure is rethrown to the caller and the
cache entry is not reverted. `durableOk` abstracts whether the durable I/O
succeeds. -/
def storageSet {V : Type} (k : String) (v : V) (durableOk : Bool)
    (st : StorageState V) : Except Unit Unit × StorageState V :=
  let cache := kvSet k v st.cache
  if durableOk then
    (Except.ok (), ⟨cache, kvSet k v st.durable⟩)
  else
    (Except.error (), ⟨cache, st.durable⟩)

/-- The joint state of two load-modify-store writers racing on the
"reminders" key of the Coordinated Store: the stored value (cache and
durable store agree while every write succeeds), and for each writer the
snapshot its `storage.get` returned (`none` until its load step ran) and
whether its `storage.set` has completed. -/
structure RaceState where
  stored : List Reminder
  snap1 : Option (List Reminder)
  done1 : Bool
  snap2 : Option (List Reminder)
  done2 : Bool
deriving DecidableEq, Repr

/-- One scheduler step of the two-writer race on one key: the chosen writer
(`true` for writer 1) takes its next program step — first its load
(`storage.get`, a snapshot of the stored value), then its `storage.set`
with the value its transform computes from its own snapshot. A `set` is
atomic here and takes effect in schedule order: `StorageManager.set` awaits
the `pendingWrites` entry for the key, so a second `set` issued while one
is in flight applies only after it — but nothing makes a writer reload
between its load and its `set`. -/
def raceStep (w₁ w₂ : List Reminder → List Reminder) (st : RaceState)
    (t : Bool) : RaceState :=
  if t then
    match st.snap1 with
    | none => { st with snap1 := some st.stored }
    | some v => if st.done1 then st else { st with stored := w₁ v, done1 := true }
  else
    match st.snap2 with
    | none => { st with snap2 := some st.stored }
    | some v => if st.done2 then st else { st with stored := w₂ v, done2 := true }

/-- Run the two-writer race from an initial stored value under a given
schedule (the list of writers chosen at each step). -/
def raceRun (w₁ w₂ : List Reminder → List Reminder) (v0 : List Reminder)
    (sched : List Bool) : RaceState :=
  sched.foldl (raceStep w₁ w₂) ⟨v0, none, false, none, false⟩

/-- The ledger rows carrying a given trigger id. -/
def rowsFor (L : List ScheduledNotification) (p : String) :
    List ScheduledNotification :=
  L.filter (fun x => x.reminderId == p)

/-- The trigger ids carried by the ledger rows, in ledger order. -/
def ledgerIds (L : List ScheduledNotification) : List String :=
  L.map (fun n => n.reminderId)

/-- A concrete never-snoozed pending reminder, used to evaluate the
theorems below on explicit inputs. -/
def exRem : Reminder :=
  ⟨"a", "ibuprofen", "200mg", MedicationType.tablet, 100,
   ReminderStatus.pending, 2, none, none, none, none⟩

/-- A concrete stored state holding only `exRem`. -/
def exSt : AppState := ⟨[exRem], ⟨[], []⟩⟩

/-- A concrete reminder already at the maximum snooze count. -/
def exRemMax : Reminder :=
  ⟨"a", "ibuprofen", "200mg", MedicationType.tablet, 100,
   ReminderStatus.pending, 2, none, some 3, some 100, some 2⟩

/-- A concrete stored state holding only `exRemMax`. -/
def exStMax : AppState := ⟨[exRemMax], ⟨[], []⟩⟩

/-- A concrete manager state whose ledger and backend hold the primary and
one escalation trigger of reminder `"r1"`. -/
def exNm : NMState :=
  ⟨[⟨"r1", "r1", 60000⟩, ⟨"r1_repeat_5", "r1_repeat_5", 360000⟩],
   [⟨"r1", "r1"⟩, ⟨"r1_repeat_5", "r1"⟩]⟩

/-- A pending reminder named `"b"`, due day 1 minute 30. -/
def exRemB : Reminder :=
  ⟨"b", "vitamin", "1", MedicationType.tablet, 30,
   ReminderStatus.pending, 1, none, none, none, none⟩

/-- A pending reminder whose id `"b_repeat_5"` aliases the escalation
trigger id that reminder `"b"` derives for the 5-minute offset. -/
def exRemAlias : Reminder :=
  ⟨"b_repeat_5", "vitamin", "1", MedicationType.tablet, 40,
   ReminderStatus.pending, 1, none, none, none, none⟩

/-- The reminder records of the reconciliation counterexample. -/
def exRestoreRems : List Reminder := [exRemB, exRemAlias]

/-- The initial manager state of the reconciliation counterexample: the
backend still holds the primary trigger of reminder `"b_repeat_5"` while
the ledger was lost. -/
def exRestoreNm : NMState := ⟨[], [⟨"b_repeat_5", "b_repeat_5"⟩]⟩

/-- Pointwise relation between a record before and after an operation: the
snooze counter does not decrease and stays within the maximum. -/
def snoozeMono (r r' : Reminder) : Prop :=
  r.snoozeCount.getD 0 ≤ r'.snoozeCount.getD 0 ∧
  (r.snoozeCount.getD 0 ≤ MAX_SNOOZE_COUNT →
    r'.snoozeCount.getD 0 ≤ MAX_SNOOZE_COUNT)

section HelperLemmas

theorem string_append_cancel {s t u : String} (h : s ++ t = s ++ u) : t = u := by
  have hd := congrArg String.data h
  rw [String.data_append, String.data_append] at hd
  exact String.ext (List.append_cancel_left hd)

theorem ne_repeatId_self (rid : String) (m : Nat) : rid ≠ repeatId rid m := by
  intro h
  have hlen := congrArg String.length h
  have h8 : ("_repeat_" : String).length = 8 := rfl
  rw [repeatId, String.length_append, String.length_append, h8] at hlen
  omega

theorem repeatId_ne_of_ne (rid : String) {m m' : Nat}
    (h : toString m ≠ toString m') : repeatId rid m ≠ repeatId rid m' := by
  intro he
  rw [repeatId, repeatId, String.append_assoc, String.append_assoc] at he
  exact h (string_append_cancel (string_append_cancel he))

theorem rowsFor_append (L₁ L₂ : List ScheduledNotification) (p : String) :
    rowsFor (L₁ ++ L₂) p = rowsFor L₁ p ++ rowsFor L₂ p := by
  simp [rowsFor]

theorem rowsFor_saveRow_self (L : List ScheduledNotification)
    (n : ScheduledNotification) : rowsFor (saveRow L n) n.reminderId = [n] := by
  rw [saveRow, rowsFor, List.filter_append, List.filter_filter]
  have h1 : L.filter
      (fun a => (a.reminderId == n.reminderId) && (a.reminderId != n.reminderId)) = [] := by
    rw [List.filter_eq_nil_iff]
    intro a _
    by_cases h : a.reminderId = n.reminderId <;> simp [h]
  rw [h1]
  simp

theorem rowsFor_saveRow_ne (L : List ScheduledNotification)
    (n : ScheduledNotification) (p : String) (h : p ≠ n.reminderId) :
    rowsFor (saveRow L n) p = rowsFor L p := by
  rw [saveRow, rowsFor, rowsFor, List.filter_append, List.filter_filter]
  have hb : (n.reminderId == p) = false :=
    beq_eq_false_iff_ne.mpr (fun hh => h hh.symm)
  have h2 : [n].filter (fun x => x.reminderId == p) = [] := by
    simp [hb]
  rw [h2, List.append_nil]
  apply List.filter_congr
  intro a _
  by_cases ha : a.reminderId = p
  · have han : a.reminderId ≠ n.reminderId := by
      intro hh
      exact h (by rw [← ha, hh])
    simp [ha, bne_iff_ne, han, h]
  · simp [ha]

theorem rowsFor_removeRow_ne (L : List ScheduledNotification)
    (rid p : String) (h : p ≠ rid) :
    rowsFor (removeRow L rid) p = rowsFor L p := by
  rw [removeRow, rowsFor, rowsFor, List.filter_filter]
  apply List.filter_congr
  intro a _
  by_cases ha : a.reminderId = p
  · have han : a.reminderId ≠ rid := by
      intro hh
      exact h (by rw [← ha, hh])
    simp [ha, bne_iff_ne, han, h]
  · simp [ha]

theorem filter_idem {α : Type} (p : α → Bool) (l : List α) :
    (l.filter p).filter p = l.filter p := by
  apply List.filter_eq_self.2
  intro a ha
  exact (List.mem_filter.mp ha).2

@[simp] theorem createTrigger_ledger (nid owner : String) (st : NMState) :
    (createTrigger nid owner st).ledger = st.ledger := rfl

@[simp] theorem createTrigger_backend (nid owner : String) (st : NMState) :
    (createTrigger nid owner st).backend =
      st.backend.filter (fun t => t.id != nid) ++ [⟨nid, owner⟩] := rfl

@[simp] theorem cancelTrigger_ledger (nid : String) (st : NMState) :
    (cancelTrigger nid st).ledger = st.ledger := rfl

@[simp] theorem cancelTrigger_backend (nid : String) (st : NMState) :
    (cancelTrigger nid st).backend = st.backend.filter (fun t => t.id != nid) := rfl

@[simp] theorem saveSched_ledger (n : ScheduledNotification) (st : NMState) :
    (saveSched n st).ledger = saveRow st.ledger n := rfl

@[simp] theorem saveSched_backend (n : ScheduledNotification) (st : NMState) :
    (saveSched n st).backend = st.backend := rfl

@[simp] theorem removeSched_ledger (rid : String) (st : NMState) :
    (removeSched rid st).ledger = removeRow st.ledger rid := rfl

@[simp] theorem removeSched_backend (rid : String) (st : NMState) :
    (removeSched rid st).backend = st.backend := rfl

theorem rowsFor_repeatsAux_notMem (nowR : Nat) (rid : String) (T : Nat)
    (p : String) :
    ∀ (ms : List Nat) (st : NMState), (∀ m ∈ ms, p ≠ repeatId rid m) →
      rowsFor (scheduleRepeatsAux nowR rid T ms st).ledger p = rowsFor st.ledger p := by
  intro ms
  induction ms with
  | nil => intro st _; rfl
  | cons m ms ih =>
    intro st hp
    rw [scheduleRepeatsAux]
    by_cases hg : T + m * 60 * 1000 ≤ nowR
    · simp only [hg, if_true]
      exact ih st (fun m' hm' => hp m' (List.mem_cons_of_mem m hm'))
    · simp only [hg, if_false]
      rw [ih _ (fun m' hm' => hp m' (List.mem_cons_of_mem m hm'))]
      simp only [saveSched_ledger, createTrigger_ledger]
      exact rowsFor_saveRow_ne _ _ _ (hp m (List.mem_cons_self m ms))

theorem rowsFor_repeatsAux_mem (nowR : Nat) (rid : String) (T : Nat) :
    ∀ (ms : List Nat) (st : NMState) (m : Nat), m ∈ ms →
      ms.Pairwise (fun a b => repeatId rid a ≠ repeatId rid b) →
      rowsFor (scheduleRepeatsAux nowR rid T ms st).ledger (repeatId rid m) =
        if T + m * 60 * 1000 ≤ nowR then rowsFor st.ledger (repeatId rid m)
        else [⟨repeatId rid m, repeatId rid m, T + m * 60 * 1000⟩] := by
  intro ms
  induction ms with
  | nil => intro st m hm; exact absurd hm (List.not_mem_nil m)
  | cons a ms ih =>
    intro st m hm hpw
    have hhead := (List.pairwise_cons.mp hpw).1
    have htail := (List.pairwise_cons.mp hpw).2
    rw [scheduleRepeatsAux]
    rcases List.mem_cons.mp hm with rfl | hm'
    · by_cases hg : T + m * 60 * 1000 ≤ nowR
      · simp only [hg, if_true]
        exact rowsFor_repeatsAux_notMem nowR rid T _ ms st
          (fun b hb => (hhead b hb))
      · simp only [hg, if_false]
        rw [rowsFor_repeatsAux_notMem nowR rid T _ ms _ (fun b hb => hhead b hb)]
        simp only [saveSched_ledger, createTrigger_ledger]
        exact rowsFor_saveRow_self _ _
    · have hne : repeatId rid m ≠ repeatId rid a :=
        fun hh => (hhead m hm') hh.symm
      by_cases hg : T + a * 60 * 1000 ≤ nowR
      · simp only [hg, if_true]
        exact ih st m hm' htail
      · simp only [hg, if_false]
        rw [ih _ m hm' htail]
        simp only [saveSched_ledger, createTrigger_ledger]
        rw [rowsFor_saveRow_ne _ _ _ hne]

theorem repeat_intervals_pairwise (rid : String) :
    REPEAT_NOTIFICATION_INTERVALS.Pairwise
      (fun a b => repeatId rid a ≠ repeatId rid b) := by
  rw [REPEAT_NOTIFICATION_INTERVALS]
  refine List.pairwise_cons.mpr ⟨?_, List.pairwise_cons.mpr ⟨?_, ?_⟩⟩
  · intro b hb
    rcases List.mem_cons.mp hb with rfl | hb'
    · exact repeatId_ne_of_ne rid (by decide)
    · rcases List.mem_cons.mp hb' with rfl | hb''
      · exact repeatId_ne_of_ne rid (by decide)
      · exact absurd hb'' (List.not_mem_nil b)
  · intro b hb
    rcases List.mem_cons.mp hb with rfl | hb'
    · exact repeatId_ne_of_ne rid (by decide)
    · exact absurd hb' (List.not_mem_nil b)
  · exact List.pairwise_singleton _ _

end HelperLemmas

/-- C1: for every reminder id and fire time `T` strictly in the future, a
successful `scheduleNotification` (Register) leaves the persisted
`scheduled_notifications` ledger containing exactly one primary row
(trigger id = reminder id, fire time `T`), plus exactly one row with id
`{reminderId}_repeat_{m}` (firing at `T + m` minutes) for each escalation
offset `m ∈ {5, 10, 15}` whose computed time is still strictly in the
future at registration time; offsets whose computed time has already
elapsed are omitted — no row is created for them, so the rows carrying that
id are exactly the pre-existing ones. -/
theorem c1_register_ledger (now nowR T : Nat) (rid : String) (st : NMState)
    (hT : now < T) :
    (scheduleNotification now nowR rid T st).1 = some rid ∧
    rowsFor (scheduleNotification now nowR rid T st).2.ledger rid = [⟨rid, rid, T⟩] ∧
    ∀ m ∈ REPEAT_NOTIFICATION_INTERVALS,
      (nowR < T + m * 60 * 1000 →
        rowsFor (scheduleNotification now nowR rid T st).2.ledger (repeatId rid m) =
          [⟨repeatId rid m, repeatId rid m, T + m * 60 * 1000⟩]) ∧
      (T + m * 60 * 1000 ≤ nowR →
        rowsFor (scheduleNotification now nowR rid T st).2.ledger (repeatId rid m) =
          rowsFor st.ledger (repeatId rid m)) := by
  have hnot : ¬ T ≤ now := Nat.not_le.mpr hT
  rw [scheduleNotification]
  simp only [hnot, if_false, scheduleRepeatNotifications]
  refine ⟨by trivial, ?_, ?_⟩
  · rw [rowsFor_repeatsAux_notMem nowR rid T rid REPEAT_NOTIFICATION_INTERVALS _
      (fun m _ => ne_repeatId_self rid m)]
    simp only [saveSched_ledger, createTrigger_ledger]
    exact rowsFor_saveRow_self st.ledger ⟨rid, rid, T⟩
  · intro m hm
    have hmem := rowsFor_repeatsAux_mem nowR rid T REPEAT_NOTIFICATION_INTERVALS
      (saveSched ⟨rid, rid, T⟩ (createTrigger rid rid st)) m hm
      (repeat_intervals_pairwise rid)
    constructor
    · intro hfut
      have hg : ¬ T + m * 60 * 1000 ≤ nowR := Nat.not_le.mpr hfut
      rw [hmem]
      simp only [hg, if_false]
    · intro hpast
      rw [hmem]
      simp only [hpast, if_true, saveSched_ledger, createTrigger_ledger]
      exact rowsFor_saveRow_ne st.ledger ⟨rid, rid, T⟩ (repeatId rid m)
        (ne_repeatId_self rid m).symm

/-- Witness for C1 at `now = nowR = 0`, `T = 1 ms`, an empty state: the
primary ledger row is present exactly once. -/
theorem c1_register_ledger_w :
    rowsFor (scheduleNotification 0 0 "r" 1 ⟨[], []⟩).2.ledger "r" = [⟨"r", "r", 1⟩] :=
  (c1_register_ledger 0 0 1 "r" ⟨[], []⟩ (by decide)).2.1

/-- C3: the aging rule applied on load maps a `pending` record to `missed`
exactly when `now` is at or past the record's due instant plus the
15-minute grace window, leaves it unchanged (still `pending`) otherwise,
and leaves every already-`taken` or already-`missed` record unchanged;
the output records are in positionwise correspondence with the input. -/
theorem c3_status_rules (now : Nat) (items : List Reminder) :
    List.Forall₂ (fun r r' =>
      ((r.status = ReminderStatus.taken ∨ r.status = ReminderStatus.missed) → r' = r) ∧
      (r.status = ReminderStatus.pending →
        ((r'.status = ReminderStatus.missed ↔ dueMs r + REMINDER_TIMEOUT_MS ≤ now) ∧
         (now < dueMs r + REMINDER_TIMEOUT_MS → r' = r))))
      items (applyStatusRules now items) := by
  induction items with
  | nil => exact List.Forall₂.nil
  | cons a l ih =>
    rw [applyStatusRules, List.map_cons]
    refine List.Forall₂.cons ?_ ih
    by_cases h1 : a.status = ReminderStatus.taken ∨ a.status = ReminderStatus.missed
    · rw [if_pos h1]
      refine ⟨fun _ => rfl, fun hp => ?_⟩
      rw [hp] at h1
      rcases h1 with h | h <;> exact absurd h (by decide)
    · have hp : a.status = ReminderStatus.pending := by
        cases hs : a.status
        · exact absurd (Or.inl hs) h1
        · rfl
        · exact absurd (Or.inr hs) h1
      rw [if_neg h1]
      by_cases h2 : dueMs a + REMINDER_TIMEOUT_MS ≤ now
      · rw [if_pos h2]
        refine ⟨fun hc => absurd hc h1, fun _ => ⟨?_, fun hlt => absurd h2 (Nat.not_le.mpr hlt)⟩⟩
        exact iff_of_true rfl h2
      · rw [if_neg h2]
        have heq : ({ a with status := ReminderStatus.pending } : Reminder) = a := by
          rw [← hp]
        refine ⟨fun hc => absurd hc h1, fun _ => ⟨iff_of_false (by simp) h2, fun _ => heq⟩⟩

/-- C2: for a stored record with `snoozeCount` strictly below the maximum of
3, the postpone (snooze) action replaces the first matching record so that
its new date/time is `now` plus the 15-minute snooze duration (to the
minute resolution of the `HH:mm`/`YYYY-MM-DD` fields), its `snoozeCount` is
incremented by exactly one, and its `originalTime`/`originalDate` receive
the pre-postpone time and date exactly when this is the first postpone
(`snoozeCount` was 0), being left untouched by every later postpone. -/
theorem c2_snooze_updates_record (now : Nat) (reminderId : String)
    (st : AppState) (r : Reminder)
    (h1 : st.reminders.find? (fun x => x.id == reminderId) = some r)
    (h2 : r.snoozeCount.getD 0 < MAX_SNOOZE_COUNT) :
    ∃ r2 : Reminder,
      (handleSnoozeAction now reminderId st).reminders =
        setFirst (fun x => x.id == reminderId) r2 st.reminders ∧
      r2.snoozeCount = some (r.snoozeCount.getD 0 + 1) ∧
      r2.date * 1440 + r2.time = (now + SNOOZE_DURATION_MS) / 60000 ∧
      (r.snoozeCount.getD 0 = 0 →
        r2.originalTime = some r.time ∧ r2.originalDate = some r.date) ∧
      (r.snoozeCount.getD 0 ≠ 0 →
        r2.originalTime = r.originalTime ∧ r2.originalDate = r.originalDate) ∧
      r2.id = r.id ∧ r2.status = r.status := by
  have hnot : ¬ MAX_SNOOZE_COUNT ≤ r.snoozeCount.getD 0 := Nat.not_le.mpr h2
  rw [handleSnoozeAction, h1]
  simp only [hnot, if_false]
  refine ⟨_, rfl, rfl, ?_, ?_, ?_, ?_, ?_⟩
  · show (now + SNOOZE_DURATION_MS) / 60000 / 1440 * 1440 +
        (now + SNOOZE_DURATION_MS) / 60000 % 1440 = (now + SNOOZE_DURATION_MS) / 60000
    omega
  · intro h0
    simp [h0]
  · intro h0
    simp [h0]
  · by_cases h0 : r.snoozeCount.getD 0 = 0 <;> simp [h0]
  · by_cases h0 : r.snoozeCount.getD 0 = 0 <;> simp [h0]

/-- Witness for C2 at `now = 0` on the stored state `exSt`: the first
postpone bumps the snooze counter to 1 and archives the pre-postpone
time. -/
theorem c2_snooze_updates_record_w :
    ∃ r2 : Reminder,
      (handleSnoozeAction 0 "a" exSt).reminders =
        setFirst (fun x => x.id == "a") r2 exSt.reminders ∧
      r2.snoozeCount = some 1 ∧ r2.originalTime = some 100 := by
  obtain ⟨r2, he, hs, _, ho, _, _, _⟩ :=
    c2_snooze_updates_record 0 "a" exSt exRem rfl (by decide)
  exact ⟨r2, he, hs, (ho rfl).1⟩

theorem forall2_refl_of {R : Reminder → Reminder → Prop} (h : ∀ a, R a a)
    (l : List Reminder) : List.Forall₂ R l l :=
  List.forall₂_same.mpr (fun a _ => h a)

theorem forall2_map_self {R : Reminder → Reminder → Prop}
    (f : Reminder → Reminder) (h : ∀ a, R a (f a)) (l : List Reminder) :
    List.Forall₂ R l (l.map f) := by
  induction l with
  | nil => exact List.Forall₂.nil
  | cons a l ih => exact List.Forall₂.cons (h a) ih

theorem forall2_setFirst {R : Reminder → Reminder → Prop}
    (p : Reminder → Bool) (v r : Reminder) (l : List Reminder)
    (hf : l.find? p = some r) (hrv : R r v) (hrefl : ∀ a, R a a) :
    List.Forall₂ R l (setFirst p v l) := by
  induction l with
  | nil => simp at hf
  | cons a l ih =>
    by_cases hp : p a
    · rw [List.find?_cons_of_pos _ hp] at hf
      injection hf with hf
      rw [setFirst, if_pos hp]
      exact List.Forall₂.cons (hf ▸ hrv) (forall2_refl_of hrefl l)
    · rw [List.find?_cons_of_neg _ hp] at hf
      rw [setFirst, if_neg hp]
      exact List.Forall₂.cons (hrefl a) (ih hf)

theorem snoozeMono_refl (a : Reminder) : snoozeMono a a :=
  ⟨Nat.le_refl _, fun h => h⟩

/-- C4: the snooze counter is monotonically non-decreasing and bounded by
`MAX_SNOOZE_COUNT = 3` under every record-mutating handler, and a postpone
(snooze) on a record whose counter has already reached the maximum is a
strict no-op: the stored records, the ledger, and the live triggers are all
left unchanged. -/
theorem c4_snooze_bound (now : Nat) (reminderId : String) (st : AppState)
    (r : Reminder)
    (h1 : st.reminders.find? (fun x => x.id == reminderId) = some r)
    (h2 : MAX_SNOOZE_COUNT ≤ r.snoozeCount.getD 0) :
    handleSnoozeAction now reminderId st = st ∧
    (∀ (now2 : Nat) (id2 : String) (st2 : AppState),
      List.Forall₂ snoozeMono st2.reminders
        (handleSnoozeAction now2 id2 st2).reminders) ∧
    (∀ (id2 : String) (st2 : AppState),
      List.Forall₂ snoozeMono st2.reminders (handleTakeAction id2 st2).reminders) ∧
    (∀ (id2 : String) (st2 : AppState),
      List.Forall₂ snoozeMono st2.reminders (handleSkipAction id2 st2).reminders) := by
  refine ⟨?_, ?_, ?_, ?_⟩
  · simp only [handleSnoozeAction, h1, h2, ite_true]
  · intro now2 id2 st2
    cases hf : st2.reminders.find? (fun x => x.id == id2) with
    | none =>
      rw [handleSnoozeAction, hf]
      exact forall2_refl_of snoozeMono_refl _
    | some r2 =>
      by_cases hb : MAX_SNOOZE_COUNT ≤ r2.snoozeCount.getD 0
      · simp only [handleSnoozeAction, hf, hb, ite_true]
        exact forall2_refl_of snoozeMono_refl _
      · simp only [handleSnoozeAction, hf, hb, ite_false]
        refine forall2_setFirst _ _ r2 _ hf ⟨?_, ?_⟩ snoozeMono_refl
        · exact Nat.le_succ _
        · intro _
          have := Nat.lt_of_not_le hb
          show r2.snoozeCount.getD 0 + 1 ≤ MAX_SNOOZE_COUNT
          omega
  · intro id2 st2
    refine forall2_map_self _ (fun a => ?_) _
    by_cases h : (a.id == id2) = true <;> simp [snoozeMono, h]
  · intro id2 st2
    refine forall2_map_self _ (fun a => ?_) _
    by_cases h : (a.id == id2) = true <;> simp [snoozeMono, h]

/-- Witness for C4: on the stored state `exStMax`, whose only record has
already been snoozed 3 times, the postpone action changes nothing. -/
theorem c4_snooze_bound_w : handleSnoozeAction 0 "a" exStMax = exStMax :=
  (c4_snooze_bound 0 "a" exStMax exRemMax rfl (by decide)).1

theorem NMState_eq_of (a b : NMState) (h1 : a.ledger = b.ledger)
    (h2 : a.backend = b.backend) : a = b := by
  cases a; cases b; cases h1; cases h2; rfl

theorem AppState_eq_of (a b : AppState) (h1 : a.reminders = b.reminders)
    (h2 : a.nm = b.nm) : a = b := by
  cases a; cases b; cases h1; cases h2; rfl

theorem cancelRepeatsAux_ledger (rid : String) :
    ∀ (ms : List Nat) (st : NMState),
      (cancelRepeatsAux rid ms st).ledger =
        st.ledger.filter
          (fun x => !(ms.map (repeatId rid)).contains x.reminderId) := by
  intro ms
  induction ms with
  | nil =>
    intro st
    simp [cancelRepeatsAux]
  | cons m ms ih =>
    intro st
    rw [cancelRepeatsAux]
    rw [ih]
    simp only [removeSched_ledger, cancelTrigger_ledger, removeRow,
      List.filter_filter, List.map_cons]
    apply List.filter_congr
    intro a _
    rw [List.contains_cons, Bool.not_or, bne, Bool.and_comm]

theorem cancelRepeatsAux_backend (rid : String) :
    ∀ (ms : List Nat) (st : NMState),
      (cancelRepeatsAux rid ms st).backend =
        st.backend.filter
          (fun t => !(ms.map (repeatId rid)).contains t.id) := by
  intro ms
  induction ms with
  | nil =>
    intro st
    simp [cancelRepeatsAux]
  | cons m ms ih =>
    intro st
    rw [cancelRepeatsAux]
    rw [ih]
    simp only [removeSched_backend, cancelTrigger_backend, List.filter_filter,
      List.map_cons]
    apply List.filter_congr
    intro a _
    rw [List.contains_cons, Bool.not_or, bne, Bool.and_comm]

theorem filter_pair_idem {α : Type} (p q : α → Bool) (l : List α) :
    ((((l.filter p).filter q).filter p).filter q) = (l.filter p).filter q := by
  simp only [List.filter_filter]
  apply List.filter_congr
  intro a _
  cases hq : q a <;> cases hp : p a <;> rfl

theorem map_status_idem (rid : String) (s : ReminderStatus) (l : List Reminder) :
    ((l.map (fun r => if r.id == rid then { r with status := s } else r)).map
      (fun r => if r.id == rid then { r with status := s } else r)) =
      l.map (fun r => if r.id == rid then { r with status := s } else r) := by
  rw [List.map_map]
  apply List.map_congr_left
  intro a _
  by_cases h : (a.id == rid) = true <;> simp [Function.comp, h]

theorem nm_clean_idem (rid : String) (nm : NMState) :
    cancelRepeats rid (removeSched rid (cancelRepeats rid (removeSched rid nm))) =
      cancelRepeats rid (removeSched rid nm) := by
  apply NMState_eq_of
  · simp only [cancelRepeats, cancelRepeatsAux_ledger, removeSched_ledger,
      removeRow]
    exact filter_pair_idem _ _ nm.ledger
  · simp only [cancelRepeats, cancelRepeatsAux_backend, removeSched_backend]
    exact filter_idem _ nm.backend

/-- C7: the acknowledge (take) and dismiss (skip) handlers are idempotent:
applying the same action twice in a row yields exactly the stored state
(records, ledger and live triggers) that applying it once yields — in
particular a second acknowledge on an already-`taken` record changes
nothing, and the model functions are total, so the replay raises no
error. -/
theorem c7_take_skip_idempotent (reminderId : String) (st : AppState) :
    handleTakeAction reminderId (handleTakeAction reminderId st) =
      handleTakeAction reminderId st ∧
    handleSkipAction reminderId (handleSkipAction reminderId st) =
      handleSkipAction reminderId st := by
  constructor
  · apply AppState_eq_of
    · simp only [handleTakeAction]
      exact map_status_idem reminderId ReminderStatus.taken st.reminders
    · simp only [handleTakeAction]
      exact nm_clean_idem reminderId st.nm
  · apply AppState_eq_of
    · simp only [handleSkipAction]
      exact map_status_idem reminderId ReminderStatus.missed st.reminders
    · simp only [handleSkipAction]
      exact nm_clean_idem reminderId st.nm

theorem ledgerIds_saveRow_nodup (L : List ScheduledNotification)
    (n : ScheduledNotification) (h : (ledgerIds L).Nodup) :
    (ledgerIds (saveRow L n)).Nodup := by
  rw [saveRow, ledgerIds, List.map_append]
  refine List.nodup_append.2 ⟨?_, List.nodup_singleton _, ?_⟩
  · exact h.sublist ((List.filter_sublist L).map _)
  · intro a ha hb
    rcases List.mem_map.mp ha with ⟨x, hx, rfl⟩
    have hbne := (List.mem_filter.mp hx).2
    rw [bne_iff_ne] at hbne
    simp only [List.map_cons, List.map_nil] at hb
    exact hbne (List.mem_singleton.mp hb)

theorem ledgerIds_removeRow_nodup (L : List ScheduledNotification)
    (rid : String) (h : (ledgerIds L).Nodup) :
    (ledgerIds (removeRow L rid)).Nodup :=
  h.sublist ((List.filter_sublist L).map _)

theorem ledgerIds_repeatsAux_nodup (nowR : Nat) (rid : String) (T : Nat) :
    ∀ (ms : List Nat) (st : NMState), (ledgerIds st.ledger).Nodup →
      (ledgerIds (scheduleRepeatsAux nowR rid T ms st).ledger).Nodup := by
  intro ms
  induction ms with
  | nil => intro st h; exact h
  | cons m ms ih =>
    intro st h
    rw [scheduleRepeatsAux]
    by_cases hg : T + m * 60 * 1000 ≤ nowR
    · rw [if_pos hg]; exact ih st h
    · rw [if_neg hg]
      exact ih _ (ledgerIds_saveRow_nodup st.ledger _ h)

/-- C10 (implicit): the ledger never gains two rows with the same trigger
id — `saveScheduledNotification` removes any old row carrying the id before
appending (so re-registering replaces the row: the rows for the saved id
are exactly the one new row), `removeScheduledNotification` only filters,
and a full `scheduleNotification` preserves the ledger's id-uniqueness. -/
theorem c10_ledger_unique (L : List ScheduledNotification)
    (n : ScheduledNotification) (rid : String) (now nowR T : Nat) (id : String)
    (st : NMState) (h : (ledgerIds L).Nodup)
    (hst : (ledgerIds st.ledger).Nodup) :
    (ledgerIds (saveRow L n)).Nodup ∧
    rowsFor (saveRow L n) n.reminderId = [n] ∧
    (ledgerIds (removeRow L rid)).Nodup ∧
    (ledgerIds (scheduleNotification now nowR id T st).2.ledger).Nodup := by
  refine ⟨ledgerIds_saveRow_nodup L n h, rowsFor_saveRow_self L n,
    ledgerIds_removeRow_nodup L rid h, ?_⟩
  rw [scheduleNotification]
  by_cases hg : T ≤ now
  · rw [if_pos hg]; exact hst
  · rw [if_neg hg]
    exact ledgerIds_repeatsAux_nodup nowR id T REPEAT_NOTIFICATION_INTERVALS _
      (ledgerIds_saveRow_nodup st.ledger _ hst)

/-- Witness for C10: re-saving a row for an id already present leaves the
ledger duplicate-free. -/
theorem c10_ledger_unique_w :
    (ledgerIds (saveRow [⟨"a", "a", 1⟩] ⟨"a", "a", 2⟩)).Nodup :=
  (c10_ledger_unique [⟨"a", "a", 1⟩] ⟨"a", "a", 2⟩ "a" 0 0 1 "a" ⟨[], []⟩
    (by decide) (by decide)).1

/-- C5: evaluating `StorageManager.set` at a failing durable write: the
error propagates to the caller, yet the in-memory cache already holds the
new value for the key while the durable store does not — the cache is
updated before the durable write, not only after it succeeds, so a failed
`Set` leaves the cache holding a value the durable store does not hold. -/
theorem c5_set_failure_cache_bug :
    (storageSet "reminders" (1 : Nat) false ⟨[], []⟩).1 = Except.error () ∧
    kvGet "reminders" (storageSet "reminders" (1 : Nat) false ⟨[], []⟩).2.cache =
      some 1 ∧
    kvGet "reminders" (storageSet "reminders" (1 : Nat) false ⟨[], []⟩).2.durable =
      none :=
  ⟨rfl, by decide, by decide⟩

/-- C9 counterexample: with both `Set` calls to the "reminders" key
serialized — writer 2's `set` applies strictly after writer 1's has
finished — the schedule in which both writers load before writer 1's `set`
completes still loses writer 1's change: writer 1 appends a new record to
its snapshot, writer 2 stores the status update it computed from its own
pre-append snapshot, and the final stored value holds the status update but
not the new record. -/
theorem c9_serialized_set_cex :
    (raceRun (addRemindersWrite [exRem])
        (updateStatusWrite "b" ReminderStatus.taken) [exRemB]
        [true, false, true, false]).stored =
      [{ exRemB with status := ReminderStatus.taken }] ∧
    exRem ∉ (raceRun (addRemindersWrite [exRem])
        (updateStatusWrite "b" ReminderStatus.taken) [exRemB]
        [true, false, true, false]).stored := by
  decide

/-- C9 (amended): `Set` calls of the Coordinated Store to the same key are
serialized — a second `Set` issued before the first completes waits and
applies after it, so same-key writes take effect in arrival order — but
each writer's `Set` stores the value precomputed from its own earlier load,
so when both writers load before the first's `Set` completes the second
`Set` overwrites the first's change, and the final stored value reflects
both changes when the second writer loads only after the first writer's
`Set` has completed. -/
theorem c9_serialized_set_amended (v0 : List Reminder)
    (w₁ w₂ : List Reminder → List Reminder) (rNew : Reminder)
    (targetId : String) (s : ReminderStatus) (h : rNew.id ≠ targetId) :
    (raceRun w₁ w₂ v0 [true, true, false, false]).stored = w₂ (w₁ v0) ∧
    (raceRun w₁ w₂ v0 [true, false, true, false]).stored = w₂ v0 ∧
    rNew ∈ (raceRun (addRemindersWrite [rNew]) (updateStatusWrite targetId s)
      v0 [true, true, false, false]).stored ∧
    (∀ r ∈ v0, r.id = targetId →
      { r with status := s } ∈ (raceRun (addRemindersWrite [rNew])
        (updateStatusWrite targetId s) v0 [true, true, false, false]).stored) := by
  refine ⟨rfl, rfl, ?_, ?_⟩
  · show rNew ∈ updateStatusWrite targetId s (addRemindersWrite [rNew] v0)
    simp [updateStatusWrite, addRemindersWrite, h]
  · intro r hr hid
    show { r with status := s } ∈
      updateStatusWrite targetId s (addRemindersWrite [rNew] v0)
    rw [updateStatusWrite]
    refine List.mem_map.mpr ⟨r, List.mem_append_left _ hr, ?_⟩
    simp [hid]

/-- Witness for the amended C9: under the non-racy schedule, a record
appended by writer 1 survives writer 2's status update. -/
theorem c9_serialized_set_amended_w :
    exRem ∈ (raceRun (addRemindersWrite [exRem])
      (updateStatusWrite "b" ReminderStatus.taken) []
      [true, true, false, false]).stored :=
  (c9_serialized_set_amended [] (addRemindersWrite [exRem])
    (updateStatusWrite "b" ReminderStatus.taken) exRem "b"
    ReminderStatus.taken (by decide)).2.2.1

/-- C6: evaluating `cancelNotifications` (CancelMany) on a ledger and
backend holding reminder `"r1"`'s primary and 5-minute escalation triggers
shows the escalation ledger row and the escalation backend trigger both
survive the batched cancellation of `["r1"]` — the batched form, unlike the
singular `cancelNotification`, never touches the `{id}_repeat_{m}`
entries. -/
theorem c6_cancelMany_leaves_escalations :
    (⟨"r1_repeat_5", "r1_repeat_5", 360000⟩ : ScheduledNotification) ∈
      (cancelNotifications ["r1"] exNm).ledger ∧
    (⟨"r1_repeat_5", "r1"⟩ : BackendTrigger) ∈
      (cancelNotifications ["r1"] exNm).backend := by
  decide

theorem mem_owners {b : List BackendTrigger} {o : String} :
    o ∈ owners b ↔ ∃ t ∈ b, t.dataReminderId = o := by
  simp [owners]

theorem owners_createTrigger (ids : List String) (hdisj : trigDisjoint ids)
    (st : NMState) (hcoh : coherentBackend st.backend)
    (hsub : ∀ o ∈ owners st.backend, o ∈ ids)
    (ow nid : String) (how : ow ∈ ids) (hnid : nid ∈ trigIds ow) :
    coherentBackend (createTrigger nid ow st).backend ∧
    (∀ o ∈ owners st.backend, o ∈ owners (createTrigger nid ow st).backend) ∧
    (∀ o ∈ owners (createTrigger nid ow st).backend, o ∈ ids) ∧
    ow ∈ owners (createTrigger nid ow st).backend := by
  refine ⟨?_, ?_, ?_, ?_⟩
  · intro t ht
    rw [createTrigger_backend] at ht
    rcases List.mem_append.mp ht with h1 | h1
    · exact hcoh t (List.mem_of_mem_filter h1)
    · rcases List.mem_singleton.mp h1 with rfl
      exact hnid
  · intro o ho
    rcases mem_owners.mp ho with ⟨t, ht, hto⟩
    by_cases hid : t.id = nid
    · have h1 : nid ∈ trigIds o := by
        have hc := hcoh t ht
        rw [hid, hto] at hc
        exact hc
      have ho_ids : o ∈ ids := hsub o ho
      by_cases how' : o = ow
      · subst how'
        exact mem_owners.mpr ⟨⟨nid, o⟩,
          List.mem_append_right _ (List.mem_singleton.mpr rfl), rfl⟩
      · exact absurd h1 (hdisj ow how o ho_ids (fun hh => how' hh.symm) nid hnid)
    · refine mem_owners.mpr ⟨t, ?_, hto⟩
      rw [createTrigger_backend]
      refine List.mem_append_left _ (List.mem_filter.mpr ⟨ht, ?_⟩)
      simp [bne_iff_ne, hid]
  · intro o ho
    rcases mem_owners.mp ho with ⟨t, ht, hto⟩
    rw [createTrigger_backend] at ht
    rcases List.mem_append.mp ht with h1 | h1
    · exact hsub o (mem_owners.mpr ⟨t, List.mem_of_mem_filter h1, hto⟩)
    · rcases List.mem_singleton.mp h1 with rfl
      exact hto ▸ how
  · exact mem_owners.mpr ⟨⟨nid, ow⟩,
      List.mem_append_right _ (List.mem_singleton.mpr rfl), rfl⟩

theorem repeats_backend_inv (ids : List String) (hdisj : trigDisjoint ids)
    (now T : Nat) (rid : String) (hrid : rid ∈ ids) :
    ∀ (ms : List Nat), (∀ m ∈ ms, repeatId rid m ∈ trigIds rid) →
    ∀ (st : NMState), coherentBackend st.backend →
      (∀ o ∈ owners st.backend, o ∈ ids) →
      coherentBackend (scheduleRepeatsAux now rid T ms st).backend ∧
      (∀ o ∈ owners st.backend,
        o ∈ owners (scheduleRepeatsAux now rid T ms st).backend) ∧
      (∀ o ∈ owners (scheduleRepeatsAux now rid T ms st).backend, o ∈ ids) := by
  intro ms
  induction ms with
  | nil => exact fun _ st hcoh hsub => ⟨hcoh, fun o ho => ho, hsub⟩
  | cons m ms ih =>
    intro hms st hcoh hsub
    rw [scheduleRepeatsAux]
    by_cases hg : T + m * 60 * 1000 ≤ now
    · rw [if_pos hg]
      exact ih (fun m' hm' => hms m' (List.mem_cons_of_mem m hm')) st hcoh hsub
    · rw [if_neg hg]
      have hct := owners_createTrigger ids hdisj st hcoh hsub rid
        (repeatId rid m) hrid (hms m (List.mem_cons_self m ms))
      have hstep := ih (fun m' hm' => hms m' (List.mem_cons_of_mem m hm'))
        (saveSched ⟨repeatId rid m, repeatId rid m, T + m * 60 * 1000⟩
          (createTrigger (repeatId rid m) rid st))
        (by simpa using hct.1) (by simpa using hct.2.2.1)
      refine ⟨hstep.1, ?_, hstep.2.2⟩
      intro o ho
      exact hstep.2.1 o (by simpa using hct.2.1 o ho)

theorem sched_backend_inv (ids : List String) (hdisj : trigDisjoint ids)
    (now T : Nat) (rid : String) (st : NMState) (hcoh : coherentBackend st.backend)
    (hsub : ∀ o ∈ owners st.backend, o ∈ ids)
    (hrid : rid ∈ ids) (hT : now < T) :
    coherentBackend ((scheduleNotification now now rid T st).2).backend ∧
    (∀ o ∈ owners st.backend,
      o ∈ owners ((scheduleNotification now now rid T st).2).backend) ∧
    (∀ o ∈ owners ((scheduleNotification now now rid T st).2).backend, o ∈ ids) ∧
    rid ∈ owners ((scheduleNotification now now rid T st).2).backend := by
  have hnot : ¬ T ≤ now := Nat.not_le.mpr hT
  rw [scheduleNotification]
  simp only [hnot, if_false, scheduleRepeatNotifications]
  have hct := owners_createTrigger ids hdisj st hcoh hsub rid rid hrid
    (List.mem_cons_self _ _)
  have hms : ∀ m ∈ REPEAT_NOTIFICATION_INTERVALS, repeatId rid m ∈ trigIds rid := by
    intro m hm
    exact List.mem_cons_of_mem _ (List.mem_map_of_mem _ hm)
  have hrep := repeats_backend_inv ids hdisj now T rid hrid
    REPEAT_NOTIFICATION_INTERVALS hms
    (saveSched ⟨rid, rid, T⟩ (createTrigger rid rid st))
    (by simpa using hct.1) (by simpa using hct.2.2.1)
  refine ⟨hrep.1, ?_, hrep.2.2, ?_⟩
  · intro o ho
    exact hrep.2.1 o (by simpa using hct.2.1 o ho)
  · exact hrep.2.1 rid (by simpa using hct.2.2.2)

theorem saveRow_future (now : Nat) (L : List ScheduledNotification)
    (row : ScheduledNotification) (hL : ∀ n ∈ L, now < n.scheduledTime)
    (hr : now < row.scheduledTime) :
    ∀ n ∈ saveRow L row, now < n.scheduledTime := by
  intro n hn
  rcases List.mem_append.mp hn with h1 | h1
  · exact hL n (List.mem_of_mem_filter h1)
  · rcases List.mem_singleton.mp h1 with rfl
    exact hr

theorem repeatsAux_ledger_future (now T : Nat) (rid : String) :
    ∀ (ms : List Nat) (st : NMState),
      (∀ n ∈ st.ledger, now < n.scheduledTime) →
      ∀ n ∈ (scheduleRepeatsAux now rid T ms st).ledger, now < n.scheduledTime := by
  intro ms
  induction ms with
  | nil => exact fun st h => h
  | cons m ms ih =>
    intro st h
    rw [scheduleRepeatsAux]
    by_cases hg : T + m * 60 * 1000 ≤ now
    · rw [if_pos hg]
      exact ih st h
    · rw [if_neg hg]
      refine ih _ ?_
      simp only [saveSched_ledger, createTrigger_ledger]
      exact saveRow_future now st.ledger _ h (Nat.lt_of_not_le hg)

theorem sched_ledger_future (now T : Nat) (rid : String) (st : NMState) (hT : now < T)
    (h : ∀ n ∈ st.ledger, now < n.scheduledTime) :
    ∀ n ∈ ((scheduleNotification now now rid T st).2).ledger,
      now < n.scheduledTime := by
  have hnot : ¬ T ≤ now := Nat.not_le.mpr hT
  rw [scheduleNotification]
  simp only [hnot, if_false, scheduleRepeatNotifications]
  refine repeatsAux_ledger_future now T rid REPEAT_NOTIFICATION_INTERVALS _ ?_
  simp only [saveSched_ledger, createTrigger_ledger]
  exact saveRow_future now st.ledger _ h hT

theorem restoreLoop_inv (ids : List String) (hdisj : trigDisjoint ids)
    (now : Nat) (E : List String) :
    ∀ (rs : List Reminder) (st : NMState),
      coherentBackend st.backend →
      (∀ o ∈ owners st.backend, o ∈ ids) →
      (∀ r ∈ rs, r.id ∈ ids) →
      coherentBackend (restoreLoop now E rs st).backend ∧
      (∀ o ∈ owners st.backend, o ∈ owners (restoreLoop now E rs st).backend) ∧
      (∀ o ∈ owners (restoreLoop now E rs st).backend, o ∈ ids) ∧
      ((∀ n ∈ st.ledger, now < n.scheduledTime) →
        ∀ n ∈ (restoreLoop now E rs st).ledger, now < n.scheduledTime) ∧
      (∀ r ∈ rs, r.status = ReminderStatus.pending → now < dueMs r →
        E.contains r.id = true ∨
          r.id ∈ owners (restoreLoop now E rs st).backend) := by
  intro rs
  induction rs with
  | nil =>
    intro st hcoh hsub _
    exact ⟨hcoh, fun o ho => ho, hsub, fun h => h,
      fun r hr => absurd hr (List.not_mem_nil r)⟩
  | cons r rs ih =>
    intro st hcoh hsub hrs
    rw [restoreLoop]
    by_cases h1 : r.status = ReminderStatus.pending
    · have hb1 : (r.status != ReminderStatus.pending) = false := by simp [h1]
      rw [hb1]
      simp only [Bool.false_eq_true, if_false]
      by_cases h2 : dueMs r ≤ now
      · rw [if_pos h2]
        have hrec := ih st hcoh hsub (fun x hx => hrs x (List.mem_cons_of_mem r hx))
        refine ⟨hrec.1, hrec.2.1, hrec.2.2.1, hrec.2.2.2.1, ?_⟩
        intro x hx hp hd
        rcases List.mem_cons.mp hx with rfl | hx'
        · exact absurd h2 (Nat.not_le.mpr hd)
        · exact hrec.2.2.2.2 x hx' hp hd
      · rw [if_neg h2]
        by_cases h3 : E.contains r.id
        · rw [if_pos h3]
          have hrec := ih st hcoh hsub (fun x hx => hrs x (List.mem_cons_of_mem r hx))
          refine ⟨hrec.1, hrec.2.1, hrec.2.2.1, hrec.2.2.2.1, ?_⟩
          intro x hx hp hd
          rcases List.mem_cons.mp hx with rfl | hx'
          · exact Or.inl h3
          · exact hrec.2.2.2.2 x hx' hp hd
        · rw [if_neg h3]
          have hT : now < dueMs r := Nat.lt_of_not_le h2
          have hsc := sched_backend_inv ids hdisj now (dueMs r) r.id st hcoh hsub
            (hrs r (List.mem_cons_self r rs)) hT
          have hrec := ih ((scheduleNotification now now r.id (dueMs r) st).2)
            hsc.1 hsc.2.2.1 (fun x hx => hrs x (List.mem_cons_of_mem r hx))
          refine ⟨hrec.1, ?_, hrec.2.2.1, ?_, ?_⟩
          · intro o ho
            exact hrec.2.1 o (hsc.2.1 o ho)
          · intro hfut
            exact hrec.2.2.2.1
              (sched_ledger_future now (dueMs r) r.id st hT hfut)
          · intro x hx hp hd
            rcases List.mem_cons.mp hx with rfl | hx'
            · exact Or.inr (hrec.2.1 x.id hsc.2.2.2)
            · exact hrec.2.2.2.2 x hx' hp hd
    · have hb1 : (r.status != ReminderStatus.pending) = true := by
        simp [bne_iff_ne, h1]
      rw [hb1]
      simp only [if_true]
      have hrec := ih st hcoh hsub (fun x hx => hrs x (List.mem_cons_of_mem r hx))
      refine ⟨hrec.1, hrec.2.1, hrec.2.2.1, hrec.2.2.2.1, ?_⟩
      intro x hx hp hd
      rcases List.mem_cons.mp hx with rfl | hx'
      · exact absurd hp h1
      · exact hrec.2.2.2.2 x hx' hp hd

theorem restoreLoop_skip (now : Nat) (E : List String) :
    ∀ (rs : List Reminder) (st : NMState),
      (∀ r ∈ rs, r.status = ReminderStatus.pending → now < dueMs r →
        E.contains r.id = true) →
      restoreLoop now E rs st = st := by
  intro rs
  induction rs with
  | nil => intro st _; rfl
  | cons r rs ih =>
    intro st h
    rw [restoreLoop]
    by_cases h1 : r.status = ReminderStatus.pending
    · have hb1 : (r.status != ReminderStatus.pending) = false := by simp [h1]
      rw [hb1]
      simp only [Bool.false_eq_true, if_false]
      by_cases h2 : dueMs r ≤ now
      · rw [if_pos h2]
        exact ih st (fun x hx => h x (List.mem_cons_of_mem r hx))
      · have h3 : E.contains r.id = true :=
          h r (List.mem_cons_self r rs) h1 (Nat.lt_of_not_le h2)
        rw [if_neg h2, if_pos h3]
        exact ih st (fun x hx => h x (List.mem_cons_of_mem r hx))
    · have hb1 : (r.status != ReminderStatus.pending) = true := by
        simp [bne_iff_ne, h1]
      rw [hb1]
      simp only [if_true]
      exact ih st (fun x hx => h x (List.mem_cons_of_mem r hx))

/-- C8 counterexample: reconciliation run twice is not ledger-idempotent for
every state. With records `"b"` and `"b_repeat_5"` (both pending and due in
the future) and a backend still holding the primary trigger of reminder
`"b_repeat_5"` while the ledger was lost, the first run schedules `"b"` —
whose 5-minute escalation trigger replaces the backend notification with id
`"b_repeat_5"` — and skips reminder `"b_repeat_5"` because the pre-run
trigger payload covered it; the second run no longer sees any trigger owned
by `"b_repeat_5"` and registers it, adding fresh ledger rows. -/
theorem c8_restore_not_idempotent_cex :
    (restoreNotifications 0 exRestoreRems
        (restoreNotifications 0 exRestoreRems exRestoreNm)).ledger ≠
      (restoreNotifications 0 exRestoreRems exRestoreNm).ledger := by
  decide

/-- C8 (amended): running `restoreNotifications` twice in a row with no
intervening mutation of records, backend or ledger yields the same ledger
as running it once, provided the backend's live triggers are coherent
(every trigger id is the primary or an escalation id derived from its own
`data.reminderId` payload) and the derived trigger-id families of the
reminder ids involved (record ids and backend payload ids) are pairwise
disjoint — i.e. no such reminder id is another's primary or
`{id}_repeat_{m}` trigger id, the aliasing the counterexample exploits. -/
theorem c8_restore_idempotent_amended (now : Nat) (rs : List Reminder)
    (st : NMState) (hcoh : coherentBackend st.backend)
    (hdisj : trigDisjoint (rs.map (fun r => r.id) ++ owners st.backend)) :
    (restoreNotifications now rs (restoreNotifications now rs st)).ledger =
      (restoreNotifications now rs st).ledger := by
  have hsub0 : ∀ o ∈ owners st.backend,
      o ∈ rs.map (fun r => r.id) ++ owners st.backend :=
    fun o ho => List.mem_append_right _ ho
  have hrs : ∀ r ∈ rs, r.id ∈ rs.map (fun r => r.id) ++ owners st.backend :=
    fun r hr => List.mem_append_left _ (List.mem_map_of_mem _ hr)
  have master := restoreLoop_inv _ hdisj now (owners st.backend) rs
    ({ st with ledger := st.ledger.filter (fun n => now < n.scheduledTime) })
    hcoh hsub0 hrs
  have hfut0 : ∀ n ∈ ({ st with
      ledger := st.ledger.filter (fun n => now < n.scheduledTime) } : NMState).ledger,
      now < n.scheduledTime := by
    intro n hn
    exact of_decide_eq_true (List.mem_filter.mp hn).2
  have hfut1 : ∀ n ∈ (restoreNotifications now rs st).ledger,
      now < n.scheduledTime := master.2.2.2.1 hfut0
  have hfix : ({ (restoreNotifications now rs st) with
      ledger := (restoreNotifications now rs st).ledger.filter
        (fun n => now < n.scheduledTime) } : NMState) =
      restoreNotifications now rs st := by
    apply NMState_eq_of
    · apply List.filter_eq_self.mpr
      intro n hn
      exact decide_eq_true (hfut1 n hn)
    · rfl
  have hskip : restoreNotifications now rs (restoreNotifications now rs st) =
      restoreNotifications now rs st := by
    show restoreLoop now (owners (restoreNotifications now rs st).backend) rs
      ({ (restoreNotifications now rs st) with
        ledger := (restoreNotifications now rs st).ledger.filter
          (fun n => now < n.scheduledTime) }) =
      restoreNotifications now rs st
    rw [hfix]
    apply restoreLoop_skip
    intro r hr hp hd
    rcases master.2.2.2.2 r hr hp hd with hE | hOwn
    · have hmem : r.id ∈ owners st.backend := List.mem_of_elem_eq_true hE
      exact List.elem_eq_true_of_mem (master.2.1 r.id hmem)
    · exact List.elem_eq_true_of_mem hOwn
  rw [hskip]

/-- Witness for the amended C8: for a single reminder `"b"` over the empty
state, whose id families cannot alias, reconciliation twice equals
reconciliation once. -/
theorem c8_restore_idempotent_amended_w :
    (restoreNotifications 0 [exRemB]
        (restoreNotifications 0 [exRemB] ⟨[], []⟩)).ledger =
      (restoreNotifications 0 [exRemB] ⟨[], []⟩).ledger :=
  c8_restore_idempotent_amended 0 [exRemB] ⟨[], []⟩
    (by intro t ht; exact absurd ht (List.not_mem_nil t))
    (by
      intro a ha b hb hne x hx hx'
      simp [exRemB, owners] at ha hb
      exact hne (ha.trans hb.symm))
